import Mathlib

/-!
Shallow embedding of the kanongraph (DriftOps) version-constraint engine,
analyzer passes, dependency graph and source normaliser, together with
theorems checking the natural-language specification against the code.

Machine integers: `semver::Version` components are Rust `u64`.  They are
modelled as `Nat`; where the source performs `u64` arithmetic that can
overflow (`+ 1` on a component) the result is taken modulo `2^64`, which is
the release-profile wrapping semantics.  `u64::MAX` is the literal
`2^64 - 1`.  Quantified statements over versions restrict components to the
representable range via `SemVer.wf`.  Versions carry their pre-release
identifier list and compare by the semver precedence order; build metadata
is not modelled (no claim concerns it).
-/

/-- `2^64`, the modulus of Rust `u64` arithmetic. -/
def w64 : Nat := 18446744073709551616

/-- `u64::MAX` as used literally in the source (`effective_bounds`,
`prev_version`, `pessimistic_upper_bound`). -/
def u64MAX : Nat := 18446744073709551615

/-- One dot-separated pre-release identifier of a `semver::Version`:
numeric identifiers compare by value and sort below alphanumeric ones,
which compare in ASCII order. -/
inductive PreIdent where
  | num (n : Nat)
  | alnum (s : List Char)
deriving DecidableEq

/-- A semantic version as the program's `semver::Version` values hold it:
the major/minor/patch components plus the (possibly empty) pre-release
identifier list.  `Version::new` builds release versions (empty list);
`Version::parse` may attach a pre-release tag.  Build metadata is not
modelled; no claim concerns it. -/
structure SemVer where
  major : Nat
  minor : Nat
  patch : Nat
  pre : List PreIdent
deriving DecidableEq

/-- The numeric components fit in `u64`, as they do for every Rust
`semver::Version`. -/
def SemVer.wf (v : SemVer) : Prop :=
  v.major ≤ u64MAX ∧ v.minor ≤ u64MAX ∧ v.patch ≤ u64MAX

instance (v : SemVer) : Decidable v.wf := by
  unfold SemVer.wf; exact inferInstance

/-- ASCII-lexicographic strict order on identifier strings (Rust `str`
ordering): a proper prefix sorts first. -/
def strLt : List Char → List Char → Prop
  | [], [] => False
  | [], _ :: _ => True
  | _ :: _, [] => False
  | a :: as, b :: bs => a.toNat < b.toNat ∨ (a = b ∧ strLt as bs)

instance instDecidableStrLt : (s t : List Char) → Decidable (strLt s t)
  | [], [] => isFalse (fun h => h)
  | [], _ :: _ => isTrue trivial
  | _ :: _, [] => isFalse (fun h => h)
  | _ :: as, _ :: bs => by
      have := instDecidableStrLt as bs
      unfold strLt
      exact inferInstance

/-- Strict order on single pre-release identifiers (semver precedence
rule: numeric below alphanumeric, numeric by value, alphanumeric by ASCII
order). -/
def preIdLt : PreIdent → PreIdent → Prop
  | .num n, .num m => n < m
  | .num _, .alnum _ => True
  | .alnum _, .num _ => False
  | .alnum s, .alnum t => strLt s t

instance instDecidablePreIdLt : (a b : PreIdent) → Decidable (preIdLt a b)
  | .num _, .num _ => by unfold preIdLt; exact inferInstance
  | .num _, .alnum _ => isTrue trivial
  | .alnum _, .num _ => isFalse (fun h => h)
  | .alnum _, .alnum _ => by unfold preIdLt; exact inferInstance

/-- Lexicographic strict order on identifier lists; a proper prefix
(fewer identifiers) sorts first. -/
def preLt : List PreIdent → List PreIdent → Prop
  | [], [] => False
  | [], _ :: _ => True
  | _ :: _, [] => False
  | a :: as, b :: bs => preIdLt a b ∨ (a = b ∧ preLt as bs)

instance instDecidablePreLt : (x y : List PreIdent) → Decidable (preLt x y)
  | [], [] => isFalse (fun h => h)
  | [], _ :: _ => isTrue trivial
  | _ :: _, [] => isFalse (fun h => h)
  | _ :: as, _ :: bs => by
      have := instDecidablePreLt as bs
      unfold preLt
      exact inferInstance

/-- The pre-release comparison inside `semver::Version`'s `Ord` for equal
triples: a release (empty list) is above every pre-release. -/
def preCmpLt (x y : List PreIdent) : Prop :=
  match x, y with
  | [], _ => False
  | _ :: _, [] => True
  | _ :: _, _ :: _ => preLt x y

instance instDecidablePreCmpLt : (x y : List PreIdent) → Decidable (preCmpLt x y)
  | [], _ => isFalse (fun h => h)
  | _ :: _, [] => isTrue trivial
  | _ :: _, _ :: _ => by unfold preCmpLt; exact inferInstance

/-- Strict order on versions: `semver::Version`'s `Ord` — lexicographic on
(major, minor, patch), then pre-release precedence. -/
def SemVer.lt (a b : SemVer) : Prop :=
  a.major < b.major ∨
    (a.major = b.major ∧
      (a.minor < b.minor ∨
        (a.minor = b.minor ∧
          (a.patch < b.patch ∨
            (a.patch = b.patch ∧ preCmpLt a.pre b.pre)))))

/-- Non-strict order on versions: strictly below or equal. -/
def SemVer.le (a b : SemVer) : Prop :=
  SemVer.lt a b ∨ a = b

instance (a b : SemVer) : Decidable (SemVer.lt a b) := by
  unfold SemVer.lt; exact inferInstance

instance (a b : SemVer) : Decidable (SemVer.le a b) := by
  unfold SemVer.le; exact inferInstance

/-- `Version::new(0, 0, 0)` (a release version, empty pre-release list). -/
def semverZero : SemVer := ⟨0, 0, 0, []⟩

/-- `Version::new(u64::MAX, u64::MAX, u64::MAX)`. -/
def semverMax : SemVer := ⟨u64MAX, u64MAX, u64MAX, []⟩

/-- `next_version` (src/types.rs): `Version::new(major, minor, patch + 1)`;
note it drops any pre-release tag of its argument. -/
def next_version (v : SemVer) : SemVer :=
  ⟨v.major, v.minor, (v.patch + 1) % w64, []⟩

/-- `prev_version` (src/types.rs): every branch builds a release version
through `Version::new`, ignoring any pre-release tag of the input. -/
def prev_version (v : SemVer) : SemVer :=
  if v.patch > 0 then ⟨v.major, v.minor, v.patch - 1, []⟩
  else if v.minor > 0 then ⟨v.major, v.minor - 1, u64MAX, []⟩
  else if v.major > 0 then ⟨v.major - 1, u64MAX, u64MAX, []⟩
  else ⟨0, 0, 0, []⟩

/-- `pessimistic_upper_bound` (src/types.rs). -/
def pessimistic_upper_bound (v : SemVer) (parts : Nat) : SemVer :=
  match parts with
  | 3 => ⟨v.major, (v.minor + 1) % w64, 0, []⟩
  | 2 => ⟨(v.major + 1) % w64, 0, 0, []⟩
  | _ => ⟨u64MAX, u64MAX, u64MAX, []⟩

/-- `VersionRange` (src/types.rs): a single version range atom. -/
inductive VersionRange where
  | Exact (v : SemVer)
  | GreaterThan (v : SemVer)
  | GreaterThanOrEqual (v : SemVer)
  | LessThan (v : SemVer)
  | LessThanOrEqual (v : SemVer)
  | NotEqual (v : SemVer)
  | Pessimistic (version : SemVer) (parts : Nat)
deriving DecidableEq

/-- `VersionRange::contains` (src/types.rs). -/
def VersionRange.contains (r : VersionRange) (version : SemVer) : Prop :=
  match r with
  | .Exact v => version = v
  | .GreaterThan v => SemVer.lt v version
  | .GreaterThanOrEqual v => SemVer.le v version
  | .LessThan v => SemVer.lt version v
  | .LessThanOrEqual v => SemVer.le version v
  | .NotEqual v => version ≠ v
  | .Pessimistic v parts =>
      SemVer.le v version ∧ SemVer.lt version (pessimistic_upper_bound v parts)

instance (r : VersionRange) (v : SemVer) : Decidable (r.contains v) := by
  unfold VersionRange.contains
  cases r <;> exact inferInstance

/-- `Constraint` (src/types.rs): raw text plus parsed ranges. -/
structure Constraint where
  raw : String
  ranges : List VersionRange
deriving DecidableEq

/-- The version carried by a range atom. -/
def VersionRange.atomVersion (r : VersionRange) : SemVer :=
  match r with
  | .Exact v | .GreaterThan v | .GreaterThanOrEqual v | .LessThan v
  | .LessThanOrEqual v | .NotEqual v => v
  | .Pessimistic v _ => v

/-- All atom versions of a constraint are representable `u64` versions, as is
the case for every `Constraint` the Rust program can hold. -/
def Constraint.wf (c : Constraint) : Prop :=
  ∀ r ∈ c.ranges, r.atomVersion.wf

instance (c : Constraint) : Decidable c.wf := by
  unfold Constraint.wf
  exact List.decidableBAll _ c.ranges

/-- `Constraint::is_satisfied_by` (src/types.rs). -/
def Constraint.is_satisfied_by (c : Constraint) (version : SemVer) : Prop :=
  ∀ r ∈ c.ranges, r.contains version

instance (c : Constraint) (v : SemVer) : Decidable (c.is_satisfied_by v) := by
  unfold Constraint.is_satisfied_by
  refine List.decidableBAll _ c.ranges

/-- One iteration of the `for range in &self.ranges` loop body of
`Constraint::effective_bounds` (src/types.rs), acting on the `(min, max)`
state. -/
def boundsStep (st : SemVer × SemVer) (r : VersionRange) : SemVer × SemVer :=
  match r with
  | .Exact v => (v, v)
  | .GreaterThan v =>
      if SemVer.le st.1 v then (next_version v, st.2) else st
  | .GreaterThanOrEqual v =>
      if SemVer.lt st.1 v then (v, st.2) else st
  | .LessThan v =>
      if SemVer.le v st.2 then (st.1, prev_version v) else st
  | .LessThanOrEqual v =>
      if SemVer.lt v st.2 then (st.1, v) else st
  | .NotEqual _ => st
  | .Pessimistic version parts =>
      let mn := if SemVer.lt st.1 version then version else st.1
      let upper := pessimistic_upper_bound version parts
      let mx := if SemVer.lt upper st.2 then upper else st.2
      (mn, mx)

/-- `Constraint::effective_bounds` (src/types.rs). -/
def Constraint.effective_bounds (c : Constraint) : Option (SemVer × SemVer) :=
  let st := c.ranges.foldl boundsStep (semverZero, semverMax)
  if SemVer.le st.1 st.2 then some st else none

/-- The `match (self_bounds, other_bounds)` body of
`Constraint::has_overlap_with` (src/types.rs). -/
def overlapOfBounds (x y : Option (SemVer × SemVer)) : Prop :=
  match x, y with
  | some (self_min, self_max), some (other_min, other_max) =>
      ¬ (SemVer.lt self_max other_min ∨ SemVer.lt other_max self_min)
  | _, _ => True

instance : (x y : Option (SemVer × SemVer)) → Decidable (overlapOfBounds x y)
  | some (_, _), some (_, _) => inferInstanceAs (Decidable (¬ _))
  | some (_, _), none => inferInstanceAs (Decidable True)
  | none, some (_, _) => inferInstanceAs (Decidable True)
  | none, none => inferInstanceAs (Decidable True)

/-- `Constraint::has_overlap_with` (src/types.rs). -/
def Constraint.has_overlap_with (c other : Constraint) : Prop :=
  overlapOfBounds c.effective_bounds other.effective_bounds

instance (a b : Constraint) : Decidable (a.has_overlap_with b) := by
  unfold Constraint.has_overlap_with
  exact inferInstance

/-- `Constraint::conflicts_with` (src/types.rs). -/
def Constraint.conflicts_with (c other : Constraint) : Prop :=
  ¬ c.has_overlap_with other

instance (a b : Constraint) : Decidable (a.conflicts_with b) := by
  unfold Constraint.conflicts_with; exact inferInstance

/-- `Constraint::is_unconstrained` (src/types.rs). -/
def Constraint.is_unconstrained (c : Constraint) : Prop :=
  c.ranges = []

instance (c : Constraint) : Decidable c.is_unconstrained := by
  unfold Constraint.is_unconstrained; exact inferInstance

/-- `Constraint::is_overly_broad` (src/types.rs). -/
def Constraint.is_overly_broad (c : Constraint) : Bool :=
  match c.ranges with
  | [VersionRange.GreaterThanOrEqual v] =>
      v.major = 0 && v.minor = 0 && v.patch = 0
  | _ => false

theorem strLt_nil_right (s : List Char) : ¬ strLt s [] := by
  cases s <;> exact fun h => h

theorem strLt_irrefl (s : List Char) : ¬ strLt s s := by
  induction s with
  | nil => exact fun h => h
  | cons a as ih =>
      intro h
      simp only [strLt] at h
      rcases h with h | ⟨-, h⟩
      · omega
      · exact ih h

theorem strLt_trans {s t u : List Char} (h₁ : strLt s t) (h₂ : strLt t u) :
    strLt s u := by
  induction s generalizing t u with
  | nil =>
      cases t with
      | nil => exact absurd h₁ (fun h => h)
      | cons b bs =>
          cases u with
          | nil => exact absurd h₂ (strLt_nil_right _)
          | cons c cs => trivial
  | cons a as ih =>
      cases t with
      | nil => exact absurd h₁ (strLt_nil_right _)
      | cons b bs =>
          cases u with
          | nil => exact absurd h₂ (strLt_nil_right _)
          | cons c cs =>
              simp only [strLt] at h₁ h₂ ⊢
              rcases h₁ with h₁ | ⟨hab, h₁⟩
              · rcases h₂ with h₂ | ⟨hbc, h₂⟩
                · exact Or.inl (by omega)
                · subst hbc
                  exact Or.inl h₁
              · subst hab
                rcases h₂ with h₂ | ⟨hbc, h₂⟩
                · exact Or.inl h₂
                · exact Or.inr ⟨hbc, ih h₁ h₂⟩

theorem char_eq_of_toNat_eq {a b : Char} (h : a.toNat = b.toNat) : a = b :=
  Char.ext (UInt32.ext h)

theorem strLt_trichotomy (s t : List Char) : strLt s t ∨ s = t ∨ strLt t s := by
  induction s generalizing t with
  | nil =>
      cases t with
      | nil => exact Or.inr (Or.inl rfl)
      | cons b bs => exact Or.inl trivial
  | cons a as ih =>
      cases t with
      | nil => exact Or.inr (Or.inr trivial)
      | cons b bs =>
          rcases Nat.lt_trichotomy a.toNat b.toNat with h | h | h
          · exact Or.inl (Or.inl h)
          · have hab : a = b := char_eq_of_toNat_eq h
            subst hab
            rcases ih bs with h' | h' | h'
            · exact Or.inl (Or.inr ⟨rfl, h'⟩)
            · exact Or.inr (Or.inl (by rw [h']))
            · exact Or.inr (Or.inr (Or.inr ⟨rfl, h'⟩))
          · exact Or.inr (Or.inr (Or.inl h))

theorem preIdLt_irrefl (a : PreIdent) : ¬ preIdLt a a := by
  cases a with
  | num n => exact fun h => absurd h (Nat.lt_irrefl n)
  | alnum s => exact strLt_irrefl s

theorem preIdLt_trans : ∀ {a b c : PreIdent},
    preIdLt a b → preIdLt b c → preIdLt a c
  | .num _, .num _, .num _, h₁, h₂ => Nat.lt_trans h₁ h₂
  | .num _, .num _, .alnum _, _, _ => trivial
  | .num _, .alnum _, .num _, _, h₂ => absurd h₂ (fun h => h)
  | .num _, .alnum _, .alnum _, _, _ => trivial
  | .alnum _, .num _, _, h₁, _ => absurd h₁ (fun h => h)
  | .alnum _, .alnum _, .num _, _, h₂ => absurd h₂ (fun h => h)
  | .alnum _, .alnum _, .alnum _, h₁, h₂ => strLt_trans h₁ h₂

theorem preIdLt_trichotomy (a b : PreIdent) :
    preIdLt a b ∨ a = b ∨ preIdLt b a := by
  cases a with
  | num n =>
      cases b with
      | num m =>
          rcases Nat.lt_trichotomy n m with h | h | h
          · exact Or.inl h
          · exact Or.inr (Or.inl (by rw [h]))
          · exact Or.inr (Or.inr h)
      | alnum t => exact Or.inl trivial
  | alnum s =>
      cases b with
      | num m => exact Or.inr (Or.inr trivial)
      | alnum t =>
          rcases strLt_trichotomy s t with h | h | h
          · exact Or.inl h
          · exact Or.inr (Or.inl (by rw [h]))
          · exact Or.inr (Or.inr h)

theorem preLt_nil_right (x : List PreIdent) : ¬ preLt x [] := by
  cases x <;> exact fun h => h

theorem preLt_irrefl (x : List PreIdent) : ¬ preLt x x := by
  induction x with
  | nil => exact fun h => h
  | cons a as ih =>
      intro h
      simp only [preLt] at h
      rcases h with h | ⟨-, h⟩
      · exact preIdLt_irrefl a h
      · exact ih h

theorem preLt_trans {x y z : List PreIdent} (h₁ : preLt x y) (h₂ : preLt y z) :
    preLt x z := by
  induction x generalizing y z with
  | nil =>
      cases y with
      | nil => exact absurd h₁ (fun h => h)
      | cons b bs =>
          cases z with
          | nil => exact absurd h₂ (preLt_nil_right _)
          | cons c cs => trivial
  | cons a as ih =>
      cases y with
      | nil => exact absurd h₁ (preLt_nil_right _)
      | cons b bs =>
          cases z with
          | nil => exact absurd h₂ (preLt_nil_right _)
          | cons c cs =>
              simp only [preLt] at h₁ h₂ ⊢
              rcases h₁ with h₁ | ⟨hab, h₁⟩
              · rcases h₂ with h₂ | ⟨hbc, h₂⟩
                · exact Or.inl (preIdLt_trans h₁ h₂)
                · subst hbc
                  exact Or.inl h₁
              · subst hab
                rcases h₂ with h₂ | ⟨hbc, h₂⟩
                · exact Or.inl h₂
                · exact Or.inr ⟨hbc, ih h₁ h₂⟩

theorem preLt_trichotomy (x y : List PreIdent) :
    preLt x y ∨ x = y ∨ preLt y x := by
  induction x generalizing y with
  | nil =>
      cases y with
      | nil => exact Or.inr (Or.inl rfl)
      | cons b bs => exact Or.inl trivial
  | cons a as ih =>
      cases y with
      | nil => exact Or.inr (Or.inr trivial)
      | cons b bs =>
          rcases preIdLt_trichotomy a b with h | h | h
          · exact Or.inl (Or.inl h)
          · subst h
            rcases ih bs with h' | h' | h'
            · exact Or.inl (Or.inr ⟨rfl, h'⟩)
            · exact Or.inr (Or.inl (by rw [h']))
            · exact Or.inr (Or.inr (Or.inr ⟨rfl, h'⟩))
          · exact Or.inr (Or.inr (Or.inl h))

theorem preCmpLt_irrefl (x : List PreIdent) : ¬ preCmpLt x x := by
  cases x with
  | nil => exact fun h => h
  | cons a as => exact preLt_irrefl _

theorem preCmpLt_trans {x y z : List PreIdent}
    (h₁ : preCmpLt x y) (h₂ : preCmpLt y z) : preCmpLt x z := by
  cases x with
  | nil => exact absurd h₁ (fun h => h)
  | cons a as =>
      cases z with
      | nil => trivial
      | cons c cs =>
          cases y with
          | nil => exact absurd h₂ (fun h => h)
          | cons b bs => exact preLt_trans h₁ h₂

theorem preCmpLt_trichotomy (x y : List PreIdent) :
    preCmpLt x y ∨ x = y ∨ preCmpLt y x := by
  cases x with
  | nil =>
      cases y with
      | nil => exact Or.inr (Or.inl rfl)
      | cons b bs => exact Or.inr (Or.inr trivial)
  | cons a as =>
      cases y with
      | nil => exact Or.inl trivial
      | cons b bs =>
          rcases preLt_trichotomy (a :: as) (b :: bs) with h | h | h
          · exact Or.inl h
          · exact Or.inr (Or.inl h)
          · exact Or.inr (Or.inr h)

theorem SemVer.lt_irrefl (a : SemVer) : ¬ SemVer.lt a a := by
  intro h
  unfold SemVer.lt at h
  rcases h with h | ⟨-, h | ⟨-, h | ⟨-, h⟩⟩⟩
  · omega
  · omega
  · omega
  · exact preCmpLt_irrefl _ h

theorem SemVer.lt_trans {a b c : SemVer}
    (h₁ : SemVer.lt a b) (h₂ : SemVer.lt b c) : SemVer.lt a c := by
  unfold SemVer.lt at *
  rcases h₁ with h₁ | ⟨e₁, h₁ | ⟨f₁, h₁ | ⟨g₁, h₁⟩⟩⟩ <;>
    rcases h₂ with h₂ | ⟨e₂, h₂ | ⟨f₂, h₂ | ⟨g₂, h₂⟩⟩⟩ <;>
      first
        | exact Or.inl (by omega)
        | exact Or.inr ⟨by omega, Or.inl (by omega)⟩
        | exact Or.inr ⟨by omega, Or.inr ⟨by omega, Or.inl (by omega)⟩⟩
        | exact Or.inr ⟨by omega, Or.inr ⟨by omega, Or.inr
            ⟨by omega, preCmpLt_trans (by assumption) (by assumption)⟩⟩⟩

theorem SemVer.lt_trichotomy (a b : SemVer) :
    SemVer.lt a b ∨ a = b ∨ SemVer.lt b a := by
  obtain ⟨a1, a2, a3, ap⟩ := a
  obtain ⟨b1, b2, b3, bp⟩ := b
  unfold SemVer.lt
  simp only [SemVer.mk.injEq]
  rcases Nat.lt_trichotomy a1 b1 with h1 | h1 | h1
  · exact Or.inl (Or.inl h1)
  · subst h1
    rcases Nat.lt_trichotomy a2 b2 with h2 | h2 | h2
    · exact Or.inl (Or.inr ⟨rfl, Or.inl h2⟩)
    · subst h2
      rcases Nat.lt_trichotomy a3 b3 with h3 | h3 | h3
      · exact Or.inl (Or.inr ⟨rfl, Or.inr ⟨rfl, Or.inl h3⟩⟩)
      · subst h3
        rcases preCmpLt_trichotomy ap bp with h4 | h4 | h4
        · exact Or.inl (Or.inr ⟨rfl, Or.inr ⟨rfl, Or.inr ⟨rfl, h4⟩⟩⟩)
        · exact Or.inr (Or.inl ⟨rfl, rfl, rfl, h4⟩)
        · exact Or.inr (Or.inr (Or.inr ⟨rfl, Or.inr ⟨rfl, Or.inr ⟨rfl, h4⟩⟩⟩))
      · exact Or.inr (Or.inr (Or.inr ⟨rfl, Or.inr ⟨rfl, Or.inl h3⟩⟩))
    · exact Or.inr (Or.inr (Or.inr ⟨rfl, Or.inl h2⟩))
  · exact Or.inr (Or.inr (Or.inl h1))

theorem SemVer.le_refl (a : SemVer) : SemVer.le a a := Or.inr rfl

theorem SemVer.le_of_lt {a b : SemVer} (h : SemVer.lt a b) : SemVer.le a b :=
  Or.inl h

theorem SemVer.lt_of_le_of_lt {a b c : SemVer}
    (h₁ : SemVer.le a b) (h₂ : SemVer.lt b c) : SemVer.lt a c := by
  rcases h₁ with h | rfl
  · exact SemVer.lt_trans h h₂
  · exact h₂

theorem SemVer.lt_of_lt_of_le {a b c : SemVer}
    (h₁ : SemVer.lt a b) (h₂ : SemVer.le b c) : SemVer.lt a c := by
  rcases h₂ with h | rfl
  · exact SemVer.lt_trans h₁ h
  · exact h₁

theorem SemVer.le_trans {a b c : SemVer}
    (h₁ : SemVer.le a b) (h₂ : SemVer.le b c) : SemVer.le a c := by
  rcases h₁ with h | rfl
  · exact Or.inl (SemVer.lt_of_lt_of_le h h₂)
  · exact h₂

theorem SemVer.not_lt {a b : SemVer} : ¬ SemVer.lt a b ↔ SemVer.le b a := by
  constructor
  · intro h
    rcases SemVer.lt_trichotomy a b with h' | h' | h'
    · exact absurd h' h
    · exact Or.inr h'.symm
    · exact Or.inl h'
  · intro h h'
    rcases h with h | rfl
    · exact SemVer.lt_irrefl _ (SemVer.lt_trans h h')
    · exact SemVer.lt_irrefl _ h'

theorem SemVer.le_total (a b : SemVer) : SemVer.le a b ∨ SemVer.le b a := by
  rcases SemVer.lt_trichotomy a b with h | h | h
  · exact Or.inl (Or.inl h)
  · exact Or.inl (Or.inr h)
  · exact Or.inr (Or.inl h)

/-- The (major, minor, patch) lexicographic strict order: semver precedence
restricted to release versions. -/
def tripleLt (a b : SemVer) : Prop :=
  a.major < b.major ∨
    (a.major = b.major ∧
      (a.minor < b.minor ∨ (a.minor = b.minor ∧ a.patch < b.patch)))

/-- The (major, minor, patch) lexicographic non-strict order. -/
def tripleLe (a b : SemVer) : Prop :=
  a.major < b.major ∨
    (a.major = b.major ∧
      (a.minor < b.minor ∨ (a.minor = b.minor ∧ a.patch ≤ b.patch)))

/-- On a release left operand the semver order is the triple order: for
equal triples a release is never strictly below the right operand. -/
theorem SemVer.lt_release_left {a b : SemVer} (ha : a.pre = []) :
    SemVer.lt a b ↔ tripleLt a b := by
  unfold SemVer.lt tripleLt
  rw [ha]
  simp [preCmpLt]

/-- Between release versions the semver order is the triple order. -/
theorem SemVer.le_release {a b : SemVer} (ha : a.pre = []) (hb : b.pre = []) :
    SemVer.le a b ↔ tripleLe a b := by
  obtain ⟨a1, a2, a3, ap⟩ := a
  obtain ⟨b1, b2, b3, bp⟩ := b
  replace ha : ap = [] := ha
  replace hb : bp = [] := hb
  subst ha
  subst hb
  unfold SemVer.le SemVer.lt tripleLe
  dsimp only
  simp only [preCmpLt, SemVer.mk.injEq, and_true, and_false, or_false,
    eq_self_iff_true]
  omega

theorem le_semverMax_of_wf {v : SemVer} (h : v.wf) : SemVer.le v semverMax := by
  obtain ⟨a, b, c, p⟩ := v
  unfold SemVer.wf at h
  dsimp only at h
  obtain ⟨h1, h2, h3⟩ := h
  by_cases hm : a = u64MAX ∧ b = u64MAX ∧ c = u64MAX
  · obtain ⟨rfl, rfl, rfl⟩ := hm
    cases p with
    | nil => exact Or.inr rfl
    | cons q qs =>
        refine Or.inl ?_
        unfold SemVer.lt semverMax
        dsimp only
        exact Or.inr ⟨rfl, Or.inr ⟨rfl, Or.inr ⟨rfl, trivial⟩⟩⟩
  · refine Or.inl ?_
    unfold SemVer.lt semverMax
    dsimp only
    rcases Nat.lt_or_ge a u64MAX with h' | h'
    · exact Or.inl h'
    · have ha : a = u64MAX := Nat.le_antisymm h1 h'
      rcases Nat.lt_or_ge b u64MAX with hb' | hb'
      · exact Or.inr ⟨ha, Or.inl hb'⟩
      · have hbe : b = u64MAX := Nat.le_antisymm h2 hb'
        have hc : c < u64MAX := by
          rcases Nat.lt_or_ge c u64MAX with hc' | hc'
          · exact hc'
          · exact absurd ⟨ha, hbe, Nat.le_antisymm h3 hc'⟩ hm
        exact Or.inr ⟨ha, Or.inr ⟨hbe, Or.inl hc⟩⟩

theorem semverZero_le {v : SemVer} (hv : v.pre = []) :
    SemVer.le semverZero v := by
  obtain ⟨a, b, c, p⟩ := v
  replace hv : p = [] := hv
  subst hv
  by_cases h : a = 0 ∧ b = 0 ∧ c = 0
  · obtain ⟨rfl, rfl, rfl⟩ := h
    exact Or.inr rfl
  · refine Or.inl ?_
    unfold SemVer.lt semverZero
    dsimp only
    rcases Nat.eq_zero_or_pos a with rfl | h'
    · rcases Nat.eq_zero_or_pos b with rfl | h''
      · rcases Nat.eq_zero_or_pos c with rfl | h'''
        · exact absurd ⟨rfl, rfl, rfl⟩ h
        · exact Or.inr ⟨rfl, Or.inr ⟨rfl, Or.inl h'''⟩⟩
      · exact Or.inr ⟨rfl, Or.inl h''⟩
    · exact Or.inl h'

theorem le_next_version_of_lt {w v : SemVer} (hw : w.pre = [])
    (hv : v.pre = []) (h : SemVer.lt w v) : SemVer.le (next_version w) v := by
  have h' := (SemVer.lt_release_left hw).mp h
  rw [SemVer.le_release rfl hv]
  unfold tripleLt at h'
  unfold tripleLe next_version
  dsimp only
  unfold w64
  omega

theorem le_prev_version_of_lt {v w : SemVer} (hwf : v.wf) (hv : v.pre = [])
    (h : SemVer.lt v w) : SemVer.le v (prev_version w) := by
  have h' := (SemVer.lt_release_left hv).mp h
  have hp : (prev_version w).pre = [] := by
    unfold prev_version
    split_ifs <;> rfl
  rw [SemVer.le_release hv hp]
  unfold SemVer.wf at hwf
  unfold tripleLt at h'
  unfold tripleLe prev_version
  split_ifs <;> (dsimp only; unfold u64MAX at *; omega)

/-- No atom of the constraint carries a pre-release tag. -/
def Constraint.preReleaseFree (c : Constraint) : Bool :=
  c.ranges.all (fun r => r.atomVersion.pre.isEmpty)

theorem preReleaseFree_atoms {c : Constraint} (h : c.preReleaseFree = true) :
    ∀ r ∈ c.ranges, r.atomVersion.pre = [] := by
  intro r hr
  have h2 : r.atomVersion.pre.isEmpty = true := List.all_eq_true.mp h r hr
  cases hp : r.atomVersion.pre with
  | nil => rfl
  | cons a as => rw [hp] at h2; simp at h2

theorem boundsStep_bracket (st : SemVer × SemVer) (r : VersionRange)
    (v : SemVer) (hv : v.wf) (hvr : v.pre = [])
    (hr : r.atomVersion.pre = []) (hc : r.contains v)
    (h₁ : SemVer.le st.1 v) (h₂ : SemVer.le v st.2) :
    SemVer.le (boundsStep st r).1 v ∧ SemVer.le v (boundsStep st r).2 := by
  cases r with
  | Exact w =>
      dsimp only [VersionRange.contains] at hc
      subst hc
      exact ⟨SemVer.le_refl v, SemVer.le_refl v⟩
  | GreaterThan w =>
      dsimp only [VersionRange.contains] at hc
      replace hr : w.pre = [] := hr
      dsimp only [boundsStep]
      split_ifs with h
      · exact ⟨le_next_version_of_lt hr hvr hc, h₂⟩
      · exact ⟨h₁, h₂⟩
  | GreaterThanOrEqual w =>
      dsimp only [VersionRange.contains] at hc
      dsimp only [boundsStep]
      split_ifs with h
      · exact ⟨hc, h₂⟩
      · exact ⟨h₁, h₂⟩
  | LessThan w =>
      dsimp only [VersionRange.contains] at hc
      dsimp only [boundsStep]
      split_ifs with h
      · exact ⟨h₁, le_prev_version_of_lt hv hvr hc⟩
      · exact ⟨h₁, h₂⟩
  | LessThanOrEqual w =>
      dsimp only [VersionRange.contains] at hc
      dsimp only [boundsStep]
      split_ifs with h
      · exact ⟨h₁, hc⟩
      · exact ⟨h₁, h₂⟩
  | NotEqual w =>
      exact ⟨h₁, h₂⟩
  | Pessimistic w parts =>
      dsimp only [VersionRange.contains] at hc
      dsimp only [boundsStep]
      constructor
      · split_ifs with h
        · exact hc.1
        · exact h₁
      · split_ifs with h
        · exact SemVer.le_of_lt hc.2
        · exact h₂

theorem boundsFold_bracket (ranges : List VersionRange) (st : SemVer × SemVer)
    (v : SemVer) (hv : v.wf) (hvr : v.pre = [])
    (hpre : ∀ r ∈ ranges, r.atomVersion.pre = [])
    (hc : ∀ r ∈ ranges, r.contains v)
    (h₁ : SemVer.le st.1 v) (h₂ : SemVer.le v st.2) :
    SemVer.le (ranges.foldl boundsStep st).1 v ∧
      SemVer.le v (ranges.foldl boundsStep st).2 := by
  induction ranges generalizing st with
  | nil => exact ⟨h₁, h₂⟩
  | cons r rest ih =>
      have hr : r.contains v := hc r (List.mem_cons_self r rest)
      have hrp : r.atomVersion.pre = [] := hpre r (List.mem_cons_self r rest)
      have hrest : ∀ x ∈ rest, x.contains v := fun x hx =>
        hc x (List.mem_cons_of_mem r hx)
      have hrestp : ∀ x ∈ rest, x.atomVersion.pre = [] := fun x hx =>
        hpre x (List.mem_cons_of_mem r hx)
      have step := boundsStep_bracket st r v hv hvr hrp hr h₁ h₂
      exact ih (boundsStep st r) hrestp hrest step.1 step.2

/-- For a pre-release-free constraint, every representable release version
satisfying it lies inside the effective interval the fold computes; in
particular that interval is then not inverted. -/
theorem effective_bounds_of_satisfied (c : Constraint) (v : SemVer)
    (hv : v.wf) (hvr : v.pre = []) (hcf : c.preReleaseFree = true)
    (hs : c.is_satisfied_by v) :
    ∃ p, c.effective_bounds = some p ∧ SemVer.le p.1 v ∧ SemVer.le v p.2 := by
  unfold Constraint.is_satisfied_by at hs
  have hb := boundsFold_bracket c.ranges (semverZero, semverMax) v hv hvr
    (preReleaseFree_atoms hcf) hs (semverZero_le hvr) (le_semverMax_of_wf hv)
  unfold Constraint.effective_bounds
  refine ⟨c.ranges.foldl boundsStep (semverZero, semverMax), ?_, hb.1, hb.2⟩
  rw [if_pos (SemVer.le_trans hb.1 hb.2)]

/-- For a pre-release-free constraint an inverted effective interval really
is empty on release versions.  (With pre-release atoms this fails: see the
C1 counterexample.) -/
theorem unsatisfiable_of_bounds_none (c : Constraint)
    (hcf : c.preReleaseFree = true) (h : c.effective_bounds = none)
    (v : SemVer) (hv : v.wf) (hvr : v.pre = []) : ¬ c.is_satisfied_by v := by
  intro hs
  obtain ⟨p, hp, -⟩ := effective_bounds_of_satisfied c v hv hvr hcf hs
  rw [h] at hp
  cases hp

/-- If a representable release version satisfies both pre-release-free
constraints, `has_overlap_with` is true. -/
theorem overlap_of_common_version (a b : Constraint) (v : SemVer)
    (hv : v.wf) (hvr : v.pre = [])
    (haf : a.preReleaseFree = true) (hbf : b.preReleaseFree = true)
    (ha : a.is_satisfied_by v) (hb : b.is_satisfied_by v) :
    a.has_overlap_with b := by
  obtain ⟨⟨mn₁, mx₁⟩, hpa, hla, hra⟩ :=
    effective_bounds_of_satisfied a v hv hvr haf ha
  obtain ⟨⟨mn₂, mx₂⟩, hpb, hlb, hrb⟩ :=
    effective_bounds_of_satisfied b v hv hvr hbf hb
  dsimp only at hla hra hlb hrb
  unfold Constraint.has_overlap_with
  rw [hpa, hpb]
  unfold overlapOfBounds
  intro h
  rcases h with h | h
  · exact SemVer.lt_irrefl v
      (SemVer.lt_of_le_of_lt hra (SemVer.lt_of_lt_of_le h hlb))
  · exact SemVer.lt_irrefl v
      (SemVer.lt_of_le_of_lt hrb (SemVer.lt_of_lt_of_le h hla))

/-- Does an atom use the `NotEqual` constructor? -/
def VersionRange.isNotEqual (r : VersionRange) : Bool :=
  match r with
  | .NotEqual _ => true
  | _ => false

/-- A constraint none of whose atoms is a `NotEqual` atom. -/
def Constraint.notEqualFree (c : Constraint) : Bool :=
  c.ranges.all (fun r => ! r.isNotEqual)

/-- C7 (amended): a pessimistic atom contains its base and excludes its
upper bound whenever the incremented component does not overflow `u64`; at
`minor = u64::MAX` (`parts = 3`) or `major = u64::MAX` (`parts = 2`) the
wrapping increment in `pessimistic_upper_bound` makes `contains(w)` false. -/
theorem c7_pessimistic_bounds (w : SemVer) :
    (w.minor < u64MAX →
       VersionRange.contains (.Pessimistic w 3) w ∧
       ¬ VersionRange.contains (.Pessimistic w 3) ⟨w.major, w.minor + 1, 0, []⟩) ∧
    (w.major < u64MAX →
       VersionRange.contains (.Pessimistic w 2) w ∧
       ¬ VersionRange.contains (.Pessimistic w 2) ⟨w.major + 1, 0, 0, []⟩) := by
  constructor
  · intro h
    have hub : pessimistic_upper_bound w 3 = ⟨w.major, w.minor + 1, 0, []⟩ := by
      dsimp only [pessimistic_upper_bound]
      rw [Nat.mod_eq_of_lt (by unfold u64MAX at h; unfold w64; omega)]
    constructor
    · refine ⟨SemVer.le_refl w, ?_⟩
      rw [hub]
      exact Or.inr ⟨rfl, Or.inl (Nat.lt_succ_self _)⟩
    · rintro ⟨-, hlt⟩
      rw [hub] at hlt
      exact SemVer.lt_irrefl _ hlt
  · intro h
    have hub : pessimistic_upper_bound w 2 = ⟨w.major + 1, 0, 0, []⟩ := by
      dsimp only [pessimistic_upper_bound]
      rw [Nat.mod_eq_of_lt (by unfold u64MAX at h; unfold w64; omega)]
    constructor
    · refine ⟨SemVer.le_refl w, ?_⟩
      rw [hub]
      exact Or.inl (Nat.lt_succ_self _)
    · rintro ⟨-, hlt⟩
      rw [hub] at hlt
      exact SemVer.lt_irrefl _ hlt

/-- C7 witness: instantiated at `1.2.3`. -/
theorem c7_pessimistic_bounds_witness :
    ((2 : Nat) < u64MAX ∧
       (VersionRange.contains (.Pessimistic ⟨1, 2, 3, []⟩ 3) ⟨1, 2, 3, []⟩ ∧
        ¬ VersionRange.contains (.Pessimistic ⟨1, 2, 3, []⟩ 3) ⟨1, 3, 0, []⟩)) ∧
    ((1 : Nat) < u64MAX ∧
       (VersionRange.contains (.Pessimistic ⟨1, 2, 3, []⟩ 2) ⟨1, 2, 3, []⟩ ∧
        ¬ VersionRange.contains (.Pessimistic ⟨1, 2, 3, []⟩ 2) ⟨2, 0, 0, []⟩)) :=
  ⟨⟨by decide, (c7_pessimistic_bounds ⟨1, 2, 3, []⟩).1 (by decide)⟩,
   ⟨by decide, (c7_pessimistic_bounds ⟨1, 2, 3, []⟩).2 (by decide)⟩⟩

/-- C7 counterexample: at `w = 0.(u64::MAX).0` with `parts = 3` the wrapped
upper bound is `0.0.0`, so `Pessimistic{w,3}.contains(w)` is `false`,
refuting the claim quantified over every semver version. -/
theorem c7_counterexample_overflow :
    ¬ VersionRange.contains
        (.Pessimistic ⟨0, u64MAX, 0, []⟩ 3) ⟨0, u64MAX, 0, []⟩ := by
  decide

/-- Rust `char::is_whitespace`: the Unicode `White_Space` code points. -/
def isRustWhitespace (c : Char) : Bool :=
  [0x09, 0x0A, 0x0B, 0x0C, 0x0D, 0x20, 0x85, 0xA0, 0x1680,
   0x2000, 0x2001, 0x2002, 0x2003, 0x2004, 0x2005, 0x2006, 0x2007,
   0x2008, 0x2009, 0x200A, 0x2028, 0x2029, 0x202F, 0x205F, 0x3000].contains
    c.toNat

/-- Rust `str::trim`: drop leading and trailing whitespace. -/
def rustTrim (l : List Char) : List Char :=
  ((l.dropWhile isRustWhitespace).reverse.dropWhile isRustWhitespace).reverse

/-- Does `pre` occur at the start of `l` (Rust `str::starts_with` /
`strip_prefix` success test)? -/
def startsWithList (pre l : List Char) : Bool :=
  match pre, l with
  | [], _ => true
  | _ :: _, [] => false
  | p :: ps, c :: cs => p = c && startsWithList ps cs

/-- Rust `str::split(',')`: the comma-separated pieces, keeping empties (an
empty input yields one empty piece). -/
def splitOnComma (l : List Char) : List (List Char) :=
  match l with
  | [] => [[]]
  | c :: cs =>
      if c = ',' then [] :: splitOnComma cs
      else
        match splitOnComma cs with
        | p :: ps => (c :: p) :: ps
        | [] => [[c]]

/-- The error type of the constraint parser (`DriftOpsError::VersionParse` is
the only variant this code path produces). -/
inductive DriftOpsError where
  | VersionParse (version : String)
deriving DecidableEq

/-- ASCII digit test. -/
def isAsciiDigit (c : Char) : Bool :=
  '0' ≤ c && c ≤ '9'

/-- Numeric value of a digit string. -/
def digitsToNat (l : List Char) : Nat :=
  l.foldl (fun acc c => acc * 10 + (c.toNat - '0'.toNat)) 0

/-- Split a list at every occurrence of `sep`. -/
def splitOnChar (sep : Char) (l : List Char) : List (List Char) :=
  match l with
  | [] => [[]]
  | c :: cs =>
      if c = sep then [] :: splitOnChar sep cs
      else
        match splitOnChar sep cs with
        | p :: ps => (c :: p) :: ps
        | [] => [[c]]

/-- ASCII identifier character of a pre-release identifier:
`[0-9A-Za-z-]`. -/
def isIdentChar (c : Char) : Bool :=
  isAsciiDigit c || ('a' ≤ c && c ≤ 'z') || ('A' ≤ c && c ≤ 'Z') || c = '-'

/-- One numeric component of the `major.minor.patch` triple: one or more
digits, no leading zero, value within `u64` (semver rejects larger),
returning the remaining characters. -/
def takeNumeric (l : List Char) : Option (Nat × List Char) :=
  match l.takeWhile isAsciiDigit with
  | [] => none
  | '0' :: _ :: _ => none
  | d =>
      let n := digitsToNat d
      if n ≤ u64MAX then some (n, l.drop d.length) else none

/-- One pre-release identifier: nonempty over `[0-9A-Za-z-]`; all-digit
identifiers are numeric (leading zeros rejected), the rest alphanumeric. -/
def parsePreIdent (l : List Char) : Option PreIdent :=
  match l with
  | [] => none
  | _ =>
      if l.all isIdentChar then
        if l.all isAsciiDigit then
          match l with
          | '0' :: _ :: _ => none
          | _ => some (PreIdent.num (digitsToNat l))
        else some (PreIdent.alnum l)
      else none

/-- The dot-separated pre-release identifier list. -/
def parsePre (l : List Char) : Option (List PreIdent) :=
  go (splitOnChar '.' l)
where
  go : List (List Char) → Option (List PreIdent)
    | [] => some []
    | p :: ps => do
        let i ← parsePreIdent p
        let rest ← go ps
        return i :: rest

/-- Model of `semver::Version::parse`: `major.minor.patch` with an optional
`-pre` identifier list.  Build metadata (`+...`) is not modelled and is
rejected; no claim concerns it. -/
def semverParse (l : List Char) : Option SemVer := do
  let (major, r1) ← takeNumeric l
  let r2 ← match r1 with
    | '.' :: r => some r
    | _ => none
  let (minor, r3) ← takeNumeric r2
  let r4 ← match r3 with
    | '.' :: r => some r
    | _ => none
  let (patch, r5) ← takeNumeric r4
  match r5 with
  | [] => some ⟨major, minor, patch, []⟩
  | '-' :: rest => (parsePre rest).map (fun pre => ⟨major, minor, patch, pre⟩)
  | _ => none

/-- `parse_version` (src/types.rs): pad missing components with zeros, strip
a leading `v`, then semver-parse. -/
def parse_version (l : List Char) : Except DriftOpsError SemVer :=
  let dots := l.count '.'
  let normalized :=
    if dots = 0 then l ++ ('.' :: '0' :: '.' :: '0' :: [])
    else if dots = 1 then l ++ ('.' :: '0' :: [])
    else l
  let normalized :=
    match normalized with
    | 'v' :: rest => rest
    | other => other
  match semverParse normalized with
  | some v => .ok v
  | none => .error (.VersionParse ⟨l⟩)

/-- `parse_single_constraint` (src/types.rs). -/
def parse_single_constraint (s : List Char) : Except DriftOpsError VersionRange := do
  let s := rustTrim s
  if startsWithList ('~' :: '>' :: []) s then
    let version_str := rustTrim (s.drop 2)
    let version ← parse_version version_str
    let parts := version_str.count '.' + 1
    return VersionRange.Pessimistic version parts
  else if startsWithList ('!' :: '=' :: []) s then
    return VersionRange.NotEqual (← parse_version (rustTrim (s.drop 2)))
  else if startsWithList ('>' :: '=' :: []) s then
    return VersionRange.GreaterThanOrEqual (← parse_version (rustTrim (s.drop 2)))
  else if startsWithList ('<' :: '=' :: []) s then
    return VersionRange.LessThanOrEqual (← parse_version (rustTrim (s.drop 2)))
  else if startsWithList ('>' :: []) s then
    return VersionRange.GreaterThan (← parse_version (rustTrim (s.drop 1)))
  else if startsWithList ('<' :: []) s then
    return VersionRange.LessThan (← parse_version (rustTrim (s.drop 1)))
  else
    let version_str :=
      rustTrim (match s with
        | '=' :: rest => rest
        | other => other)
    return VersionRange.Exact (← parse_version version_str)

/-- The `for part in s.split(',')` loop of `parse_constraint_string`
(src/types.rs): trim each piece, skip empties, parse the rest in order. -/
def parseParts : List (List Char) → Except DriftOpsError (List VersionRange)
  | [] => .ok []
  | p :: ps =>
      let t := rustTrim p
      if t.isEmpty then parseParts ps
      else do
        let r ← parse_single_constraint t
        let rest ← parseParts ps
        return r :: rest

/-- `parse_constraint_string` (src/types.rs). -/
def parse_constraint_string (s : String) : Except DriftOpsError (List VersionRange) :=
  parseParts (splitOnComma s.data)

/-- `Constraint::parse` (src/types.rs). -/
def Constraint.parse (s : String) : Except DriftOpsError Constraint :=
  match parse_constraint_string s with
  | .ok ranges => .ok { raw := s, ranges := ranges }
  | .error e => .error e

theorem splitOnComma_ne_nil (l : List Char) : splitOnComma l ≠ [] := by
  cases l with
  | nil => simp [splitOnComma]
  | cons c cs =>
      unfold splitOnComma
      split_ifs
      · simp
      · cases h : splitOnComma cs <;> simp

theorem splitOnComma_chars (l : List Char)
    (h : ∀ c ∈ l, c = ',' ∨ isRustWhitespace c = true) :
    ∀ p ∈ splitOnComma l, ∀ c ∈ p, isRustWhitespace c = true := by
  induction l with
  | nil =>
      intro p hp c hc
      simp [splitOnComma] at hp
      subst hp
      cases hc
  | cons a cs ih =>
      have ha := h a (List.mem_cons_self a cs)
      have hcs : ∀ c ∈ cs, c = ',' ∨ isRustWhitespace c = true := fun c hc =>
        h c (List.mem_cons_of_mem a hc)
      intro p hp c hc
      unfold splitOnComma at hp
      by_cases hcomma : a = ','
      · rw [if_pos hcomma] at hp
        rcases List.mem_cons.mp hp with rfl | hp'
        · cases hc
        · exact ih hcs p hp' c hc
      · rw [if_neg hcomma] at hp
        have hwa : isRustWhitespace a = true := ha.resolve_left hcomma
        cases hsp : splitOnComma cs with
        | nil => exact absurd hsp (splitOnComma_ne_nil cs)
        | cons q qs =>
            rw [hsp] at hp
            rcases List.mem_cons.mp hp with rfl | hp'
            · rcases List.mem_cons.mp hc with rfl | hc'
              · exact hwa
              · exact ih hcs q (by rw [hsp]; exact List.mem_cons_self q qs) c hc'
            · exact ih hcs p (by rw [hsp]; exact List.mem_cons_of_mem q hp') c hc

theorem rustTrim_eq_nil_of_all_ws (p : List Char)
    (h : ∀ c ∈ p, isRustWhitespace c = true) : rustTrim p = [] := by
  unfold rustTrim
  rw [List.dropWhile_eq_nil_iff.mpr h]
  simp

theorem parseParts_all_blank (parts : List (List Char))
    (h : ∀ p ∈ parts, rustTrim p = []) : parseParts parts = .ok [] := by
  induction parts with
  | nil => rfl
  | cons p ps ih =>
      unfold parseParts
      rw [h p (List.mem_cons_self p ps)]
      simp only [List.isEmpty_nil, if_pos]
      exact ih fun q hq => h q (List.mem_cons_of_mem p hq)

/-- C10: a constraint string made only of commas and whitespace (including
the empty string) parses successfully to an empty atom list: the resulting
constraint is unconstrained and every version satisfies it. -/
theorem c10_blank_constraint_parses_empty (s : String)
    (h : ∀ c ∈ s.data, c = ',' ∨ isRustWhitespace c = true) :
    parse_constraint_string s = .ok [] ∧
    Constraint.parse s = .ok { raw := s, ranges := [] } ∧
    (Constraint.mk s []).is_unconstrained ∧
    ∀ v : SemVer, (Constraint.mk s []).is_satisfied_by v := by
  have hchars := splitOnComma_chars s.data h
  have hblank : ∀ p ∈ splitOnComma s.data, rustTrim p = [] := fun p hp =>
    rustTrim_eq_nil_of_all_ws p (hchars p hp)
  have hparse : parse_constraint_string s = .ok [] :=
    parseParts_all_blank (splitOnComma s.data) hblank
  refine ⟨hparse, ?_, rfl, ?_⟩
  · unfold Constraint.parse
    rw [hparse]
  · intro v r hr
    cases hr

/-- C10 witness: the string `" , ,, "`. -/
theorem c10_blank_constraint_parses_empty_witness :
    (∀ c ∈ (" , ,, " : String).data,
        c = ',' ∨ isRustWhitespace c = true) ∧
    parse_constraint_string " , ,, " = .ok [] ∧
    Constraint.parse " , ,, " = .ok { raw := " , ,, ", ranges := [] } :=
  ⟨by decide,
   (c10_blank_constraint_parses_empty " , ,, " (by decide)).1,
   (c10_blank_constraint_parses_empty " , ,, " (by decide)).2.1⟩

/-- `ModuleSource` (src/types.rs). -/
inductive ModuleSource where
  | Registry (hostname nspace name provider : String)
  | Git (host url : String) (ref_ subdir : Option String)
  | Local (path : String)
  | Http (url : String)
  | S3 (bucket key : String) (region : Option String)
  | Gcs (bucket path : String)
  | Unknown (s : String)
deriving DecidableEq

/-- `ModuleSource::canonical_id` (src/types.rs).  The empty-subdir arm only
logs a warning and leaves the id unchanged. -/
def ModuleSource.canonical_id (src : ModuleSource) : String :=
  match src with
  | .Registry hostname nspace name provider =>
      hostname ++ "/" ++ nspace ++ "/" ++ name ++ "/" ++ provider
  | .Git host _url ref_ subdir =>
      let id := host
      let id := match ref_ with
        | some r => id ++ "?ref=" ++ r
        | none => id
      match subdir with
      | some s => if s.isEmpty then id else id ++ "//" ++ s
      | none => id
  | .Local path => "local://" ++ path
  | .Http url => url
  | .S3 bucket key _region => "s3://" ++ bucket ++ "/" ++ key
  | .Gcs bucket path => "gcs://" ++ bucket ++ "/" ++ path
  | .Unknown s => s

/-- `ModuleSource::is_local` (src/types.rs). -/
def ModuleSource.is_local (src : ModuleSource) : Bool :=
  match src with
  | .Local _ => true
  | _ => false

/-- `ModuleRef` (src/types.rs); the attribute map is carried as a list of
pairs. -/
structure ModuleRef where
  name : String
  source : ModuleSource
  version_constraint : Option Constraint
  file_path : String
  line_number : Nat
  repository : Option String
  attributes : List (String × String)
deriving DecidableEq

/-- `ProviderRef` (src/types.rs). -/
structure ProviderRef where
  name : String
  source : Option String
  version_constraint : Option Constraint
  file_path : String
  line_number : Nat
  repository : Option String
deriving DecidableEq

/-- `ProviderRef::qualified_source` (src/types.rs). -/
def ProviderRef.qualified_source (p : ProviderRef) : String :=
  match p.source with
  | some s => s
  | none => "hashicorp/" ++ p.name

/-- `Severity` (src/types.rs). -/
inductive Severity where
  | Info
  | Warning
  | Error
  | Critical
deriving DecidableEq

/-- `FindingCategory` (src/types.rs). -/
inductive FindingCategory where
  | ConstraintConflict
  | MissingConstraint
  | BroadConstraint
  | Deprecated
  | Outdated
  | Security
  | BestPractice
  | Configuration
deriving DecidableEq

/-- `Location` (src/types.rs). -/
structure Location where
  file : String
  line : Nat
  column : Option Nat
  repository : Option String
deriving DecidableEq

/-- `Finding` (src/types.rs). -/
structure Finding where
  code : String
  severity : Severity
  message : String
  description : Option String
  location : Option Location
  related_locations : List Location
  suggestion : Option String
  category : FindingCategory
deriving DecidableEq

/-- `RiskyPattern` (src/analyzer/patterns.rs). -/
inductive RiskyPattern where
  | Wildcard
  | PreRelease
  | ExactVersion
  | NoUpperBound
deriving DecidableEq

/-- Is `needle` a contiguous substring of `hay` (Rust `str::contains`)? -/
def containsSub (needle hay : List Char) : Bool :=
  match hay with
  | [] => needle.isEmpty
  | _ :: t => startsWithList needle hay || containsSub needle t

/-- `WILDCARD_PATTERN` (src/analyzer/patterns.rs): `^\s*\*\s*$`. -/
def wildcardMatch (s : String) : Bool :=
  match s.data.dropWhile isRustWhitespace with
  | '*' :: rest => rest.all isRustWhitespace
  | _ => false

/-- `PRERELEASE_PATTERN` (src/analyzer/patterns.rs):
`-(?:alpha|beta|rc|dev|pre)\d*`; since `\d*` may be empty, `is_match` holds
exactly when one of the literal tags occurs as a substring. -/
def prereleaseMatch (s : String) : Bool :=
  containsSub "-alpha".data s.data || containsSub "-beta".data s.data ||
    containsSub "-rc".data s.data || containsSub "-dev".data s.data ||
    containsSub "-pre".data s.data

/-- Consume one-or-more ASCII digits (`\d+`), returning the rest. -/
def eatDigits1 (l : List Char) : Option (List Char) :=
  match l with
  | c :: cs =>
      if isAsciiDigit c then some ((c :: cs).dropWhile isAsciiDigit) else none
  | [] => none

/-- Consume `\d+\.\d+\.\d+`, returning the rest. -/
def eatVersionTriple (l : List Char) : Option (List Char) := do
  let l1 ← eatDigits1 l
  let l2 ← match l1 with
    | '.' :: r => some r
    | _ => none
  let l3 ← eatDigits1 l2
  let l4 ← match l3 with
    | '.' :: r => some r
    | _ => none
  eatDigits1 l4

/-- `EXACT_VERSION_PATTERN` (src/analyzer/patterns.rs):
`^\s*=?\s*\d+\.\d+\.\d+\s*$`. -/
def exactVersionMatch (s : String) : Bool :=
  let l := s.data.dropWhile isRustWhitespace
  let l := match l with
    | '=' :: r => r
    | r => r
  let l := l.dropWhile isRustWhitespace
  match eatVersionTriple l with
  | some rest => rest.all isRustWhitespace
  | none => false

/-- `PatternChecker` (src/analyzer/patterns.rs), holding the configuration
toggles (`Config::default` sets all three to `true`). -/
structure PatternChecker where
  check_exact : Bool
  check_prerelease : Bool
  check_upper_bound : Bool
deriving DecidableEq

/-- `PatternChecker::has_no_upper_bound` (src/analyzer/patterns.rs). -/
def has_no_upper_bound (constraint : String) : Bool :=
  if containsSub "~>".data constraint.data then false
  else
    let has_lower :=
      containsSub ">=".data constraint.data || constraint.data.contains '>'
    let has_upper :=
      containsSub "<=".data constraint.data || constraint.data.contains '<'
    has_lower && ! has_upper

/-- `PatternChecker::check` (src/analyzer/patterns.rs). -/
def PatternChecker.check (pc : PatternChecker) (constraint : String) :
    List RiskyPattern :=
  (if wildcardMatch constraint then [RiskyPattern.Wildcard] else []) ++
  (if pc.check_prerelease && prereleaseMatch constraint then
      [RiskyPattern.PreRelease] else []) ++
  (if pc.check_exact && exactVersionMatch constraint then
      [RiskyPattern.ExactVersion] else []) ++
  (if pc.check_upper_bound && has_no_upper_bound constraint then
      [RiskyPattern.NoUpperBound] else [])

/-- The per-module body of the first loop of
`Analyzer::check_missing_constraints` (src/analyzer/conflict.rs): a
`DRIFT002` finding for a module without a constraint, unless the source is
local. -/
def missing_module_finding (m : ModuleRef) : Option Finding :=
  if m.version_constraint.isNone && ! m.source.is_local then
    some {
      code := "DRIFT002"
      severity := Severity.Warning
      message := "Module '" ++ m.name ++ "' has no version constraint"
      description := some ("Modules without version constraints may unexpectedly update " ++
        "to incompatible versions. Always specify a version constraint.")
      location := some ⟨m.file_path, m.line_number, none, m.repository⟩
      related_locations := []
      suggestion := some "Add a version constraint, e.g., version = \"~> 1.0\""
      category := FindingCategory.MissingConstraint }
  else none

/-- The per-provider body of the second loop of
`Analyzer::check_missing_constraints` (src/analyzer/conflict.rs). -/
def missing_provider_finding (p : ProviderRef) : Option Finding :=
  if p.version_constraint.isNone then
    some {
      code := "DRIFT002"
      severity := Severity.Warning
      message := "Provider '" ++ p.name ++ "' has no version constraint"
      description := some ("Providers without version constraints may unexpectedly update " ++
        "to incompatible versions. Always specify a version constraint.")
      location := some ⟨p.file_path, p.line_number, none, p.repository⟩
      related_locations := []
      suggestion := some "Add a version constraint, e.g., version = \">= 4.0, < 6.0\""
      category := FindingCategory.MissingConstraint }
  else none

/-- `Analyzer::check_missing_constraints` (src/analyzer/conflict.rs). -/
def check_missing_constraints (modules : List ModuleRef)
    (providers : List ProviderRef) : List Finding :=
  modules.filterMap missing_module_finding ++
    providers.filterMap missing_provider_finding

/-- `Analyzer::pattern_to_finding` (src/analyzer/conflict.rs). -/
def pattern_to_finding (pattern : RiskyPattern) (name file : String)
    (line : Nat) (repo : Option String) : Finding :=
  let parts : String × Severity × String × String × String :=
    match pattern with
    | .Wildcard =>
        ("DRIFT003", Severity.Warning,
         "'" ++ name ++ "' uses wildcard version constraint",
         "Wildcard constraints like '*' allow any version and should be avoided.",
         "Replace with a specific constraint like '~> 1.0'")
    | .PreRelease =>
        ("DRIFT005", Severity.Info,
         "'" ++ name ++ "' uses pre-release version",
         "Pre-release versions may be unstable and are not recommended for production.",
         "Consider using a stable release version")
    | .ExactVersion =>
        ("DRIFT006", Severity.Info,
         "'" ++ name ++ "' uses exact version constraint",
         "Exact version constraints prevent automatic patch updates.",
         "Consider using '~> X.Y.0' to allow patch updates")
    | .NoUpperBound =>
        ("DRIFT007", Severity.Warning,
         "'" ++ name ++ "' has no upper bound on version",
         "Constraints without upper bounds may allow breaking changes.",
         "Add an upper bound, e.g., '>= 1.0, < 2.0'")
  { code := parts.1
    severity := parts.2.1
    message := parts.2.2.1
    description := some parts.2.2.2.1
    location := some ⟨file, line, none, repo⟩
    related_locations := []
    suggestion := some parts.2.2.2.2
    category := FindingCategory.BestPractice }

/-- The per-module body of the first loop of
`Analyzer::check_risky_patterns` (src/analyzer/conflict.rs); note it never
consults `m.source`. -/
def module_risky_findings (pc : PatternChecker) (m : ModuleRef) : List Finding :=
  match m.version_constraint with
  | some c =>
      (pc.check c.raw).map fun p =>
        pattern_to_finding p m.name m.file_path m.line_number m.repository
  | none => []

/-- The per-provider body of the second loop of
`Analyzer::check_risky_patterns` (src/analyzer/conflict.rs). -/
def provider_risky_findings (pc : PatternChecker) (p : ProviderRef) : List Finding :=
  match p.version_constraint with
  | some c =>
      (pc.check c.raw).map fun pat =>
        pattern_to_finding pat p.name p.file_path p.line_number p.repository
  | none => []

/-- `Analyzer::check_risky_patterns` (src/analyzer/conflict.rs); the
`PatternChecker` argument is the analyzer's `pattern_checker` field, built
from the configuration (all three toggles default to `true`). -/
def check_risky_patterns (pc : PatternChecker) (modules : List ModuleRef)
    (providers : List ProviderRef) : List Finding :=
  modules.flatMap (module_risky_findings pc) ++
    providers.flatMap (provider_risky_findings pc)

/-- The per-module body of the first loop of
`Analyzer::check_broad_constraints` (src/analyzer/conflict.rs); it never
consults `m.source` either. -/
def module_broad_finding (m : ModuleRef) : Option Finding :=
  match m.version_constraint with
  | some c =>
      if c.is_overly_broad then
        some {
          code := "DRIFT004"
          severity := Severity.Warning
          message := "Module '" ++ m.name ++ "' has overly broad constraint: " ++ c.raw
          description := some ("Overly broad constraints like '>= 0.0.0' effectively allow " ++
            "any version and don't provide meaningful protection.")
          location := some ⟨m.file_path, m.line_number, none, m.repository⟩
          related_locations := []
          suggestion := some "Use a more specific constraint like '~> 1.0' or '>= 1.0, < 2.0'"
          category := FindingCategory.BroadConstraint }
      else none
  | none => none

/-- The per-provider body of the second loop of
`Analyzer::check_broad_constraints` (src/analyzer/conflict.rs). -/
def provider_broad_finding (p : ProviderRef) : Option Finding :=
  match p.version_constraint with
  | some c =>
      if c.is_overly_broad then
        some {
          code := "DRIFT004"
          severity := Severity.Warning
          message := "Provider '" ++ p.name ++ "' has overly broad constraint: " ++ c.raw
          description := some ("Overly broad constraints like '>= 0.0.0' effectively allow " ++
            "any version and don't provide meaningful protection.")
          location := some ⟨p.file_path, p.line_number, none, p.repository⟩
          related_locations := []
          suggestion := some "Use a more specific constraint like '>= 4.0, < 6.0'"
          category := FindingCategory.BroadConstraint }
      else none
  | none => none

/-- `Analyzer::check_broad_constraints` (src/analyzer/conflict.rs). -/
def check_broad_constraints (modules : List ModuleRef)
    (providers : List ProviderRef) : List Finding :=
  modules.filterMap module_broad_finding ++
    providers.filterMap provider_broad_finding

/-- `suggest_compatible_constraint` (src/analyzer/conflict.rs). -/
def suggest_compatible_constraint (c1 c2 : Constraint) : String :=
  if containsSub "~>".data c1.raw.data && containsSub "~>".data c2.raw.data then
    c1.raw ++ " (align both to this)"
  else
    "align both constraints to the same range"

/-- `Analyzer::check_constraint_conflict` (src/analyzer/conflict.rs). -/
def check_constraint_conflict (source : String)
    (constraint1 constraint2 : Option Constraint)
    (file1 : String) (line1 : Nat) (repo1 : Option String)
    (file2 : String) (line2 : Nat) (repo2 : Option String) : Option Finding :=
  match constraint1, constraint2 with
  | some c1, some c2 =>
      if c1.conflicts_with c2 then
        some {
          code := "DRIFT001"
          severity := if repo1 = repo2 then Severity.Error else Severity.Warning
          message := "Version constraint conflict for '" ++ source ++ "': '" ++
            c1.raw ++ "' vs '" ++ c2.raw ++ "'"
          description := some ("The constraints '" ++ c1.raw ++ "' and '" ++ c2.raw ++
            "' have no overlapping versions. This will cause Terraform to fail " ++
            "when both modules are used together.")
          location := some ⟨file1, line1, none, repo1⟩
          related_locations := [⟨file2, line2, none, repo2⟩]
          suggestion := some ("Consider aligning the constraints. A compatible range might be: '" ++
            suggest_compatible_constraint c1 c2 ++ "'")
          category := FindingCategory.ConstraintConflict }
      else none
  | _, _ => none

/-- C3 (amended): local modules are exempt only from the missing-constraint
pass (`DRIFT002`); the risky-pattern and broad-constraint per-module checks
never consult the module source, so they treat local modules like any
other.  (That the original exemption claim fails is shown by
`c3_counterexample_local_module_flagged`.) -/
theorem c3_local_exemption_missing_only :
    (∀ m : ModuleRef, m.source.is_local = true → missing_module_finding m = none) ∧
    (∀ (pc : PatternChecker) (m : ModuleRef) (s : ModuleSource),
        module_risky_findings pc { m with source := s } = module_risky_findings pc m) ∧
    (∀ (m : ModuleRef) (s : ModuleSource),
        module_broad_finding { m with source := s } = module_broad_finding m) := by
  refine ⟨?_, ?_, ?_⟩
  · intro m h
    simp [missing_module_finding, h]
  · intro pc m s
    rfl
  · intro m s
    rfl

/-- C3 witness: a concrete local module with no constraint gets no
missing-constraint finding, and swapping a registry source for a local one
changes neither the risky nor the broad result. -/
theorem c3_local_exemption_missing_only_witness :
    missing_module_finding
      (ModuleRef.mk "net" (ModuleSource.Local "./modules/net") none "main.tf" 1 none [])
      = none ∧
    module_risky_findings (PatternChecker.mk true true true)
      { ModuleRef.mk "net" (ModuleSource.Registry "registry.terraform.io" "o" "net" "aws")
          (some (Constraint.mk ">= 0.0.0" [.GreaterThanOrEqual ⟨0, 0, 0, []⟩])) "main.tf" 1 none []
        with source := ModuleSource.Local "./modules/net" }
      = module_risky_findings (PatternChecker.mk true true true)
        (ModuleRef.mk "net" (ModuleSource.Registry "registry.terraform.io" "o" "net" "aws")
          (some (Constraint.mk ">= 0.0.0" [.GreaterThanOrEqual ⟨0, 0, 0, []⟩])) "main.tf" 1 none []) :=
  ⟨c3_local_exemption_missing_only.1
      (ModuleRef.mk "net" (ModuleSource.Local "./modules/net") none "main.tf" 1 none [])
      (by decide),
   c3_local_exemption_missing_only.2.1 (PatternChecker.mk true true true)
      (ModuleRef.mk "net" (ModuleSource.Registry "registry.terraform.io" "o" "net" "aws")
        (some (Constraint.mk ">= 0.0.0" [.GreaterThanOrEqual ⟨0, 0, 0, []⟩])) "main.tf" 1 none [])
      (ModuleSource.Local "./modules/net")⟩

/-- C3 counterexample: a local module carrying `>= 0.0.0` receives a
`DRIFT007` risky-pattern finding and a `DRIFT004` broad-constraint finding —
the risky and broad passes do not exempt local modules as claimed. -/
theorem c3_counterexample_local_module_flagged :
    (ModuleSource.Local "./modules/net").is_local = true ∧
    (check_risky_patterns (PatternChecker.mk true true true)
        [ModuleRef.mk "net" (ModuleSource.Local "./modules/net")
          (some (Constraint.mk ">= 0.0.0" [.GreaterThanOrEqual ⟨0, 0, 0, []⟩]))
          "main.tf" 1 none []] []).map Finding.code = ["DRIFT007"] ∧
    (check_broad_constraints
        [ModuleRef.mk "net" (ModuleSource.Local "./modules/net")
          (some (Constraint.mk ">= 0.0.0" [.GreaterThanOrEqual ⟨0, 0, 0, []⟩]))
          "main.tf" 1 none []] []).map Finding.code = ["DRIFT004"] := by
  refine ⟨rfl, ?_, ?_⟩
  · decide
  · decide

/-- C8 (amended): when both raw constraint texts contain `~>`, the
suggestion names the FIRST constraint's raw text (`c1.raw (align both to
this)`) regardless of which text is higher; otherwise it is the generic
text; and every `DRIFT001` finding wraps that suggestion in
`Consider aligning the constraints. A compatible range might be: '…'`. -/
theorem c8_suggestion_names_first_constraint :
    (∀ c1 c2 : Constraint,
       (containsSub "~>".data c1.raw.data && containsSub "~>".data c2.raw.data) = true →
         suggest_compatible_constraint c1 c2 = c1.raw ++ " (align both to this)") ∧
    (∀ c1 c2 : Constraint,
       (containsSub "~>".data c1.raw.data && containsSub "~>".data c2.raw.data) = false →
         suggest_compatible_constraint c1 c2 = "align both constraints to the same range") ∧
    (∀ (source : String) (c1 c2 : Constraint) (file1 : String) (line1 : Nat)
       (repo1 : Option String) (file2 : String) (line2 : Nat) (repo2 : Option String)
       (f : Finding),
       check_constraint_conflict source (some c1) (some c2)
           file1 line1 repo1 file2 line2 repo2 = some f →
         f.suggestion = some ("Consider aligning the constraints. A compatible range might be: '" ++
           suggest_compatible_constraint c1 c2 ++ "'")) := by
  refine ⟨?_, ?_, ?_⟩
  · intro c1 c2 h
    simp [suggest_compatible_constraint, h]
  · intro c1 c2 h
    simp [suggest_compatible_constraint, h]
  · intro source c1 c2 file1 line1 repo1 file2 line2 repo2 f h
    simp only [check_constraint_conflict] at h
    by_cases hc : c1.conflicts_with c2
    · rw [if_pos hc] at h
      cases h
      rfl
    · rw [if_neg hc] at h
      cases h

/-- C8 witness: a concrete conflicting pessimistic pair. -/
theorem c8_suggestion_names_first_constraint_witness :
    suggest_compatible_constraint
        (Constraint.mk "~> 1.0" [.Pessimistic ⟨1, 0, 0, []⟩ 2])
        (Constraint.mk "~> 5.0" [.Pessimistic ⟨5, 0, 0, []⟩ 2])
      = (Constraint.mk "~> 1.0" [.Pessimistic ⟨1, 0, 0, []⟩ 2]).raw ++ " (align both to this)" :=
  c8_suggestion_names_first_constraint.1
    (Constraint.mk "~> 1.0" [.Pessimistic ⟨1, 0, 0, []⟩ 2])
    (Constraint.mk "~> 5.0" [.Pessimistic ⟨5, 0, 0, []⟩ 2]) (by decide)

/-- C8 counterexample: `~> 1.0` vs `~> 5.0` conflict and both use `~>`, yet
the emitted suggestion quotes `~> 1.0` — the first constraint, not the
higher one (`~> 5.0` never appears in the suggestion text). -/
theorem c8_counterexample_suggests_first_not_higher :
    (Constraint.mk "~> 1.0" [.Pessimistic ⟨1, 0, 0, []⟩ 2]).conflicts_with
      (Constraint.mk "~> 5.0" [.Pessimistic ⟨5, 0, 0, []⟩ 2]) ∧
    suggest_compatible_constraint
        (Constraint.mk "~> 1.0" [.Pessimistic ⟨1, 0, 0, []⟩ 2])
        (Constraint.mk "~> 5.0" [.Pessimistic ⟨5, 0, 0, []⟩ 2])
      = "~> 1.0 (align both to this)" ∧
    containsSub "~> 5.0".data "~> 1.0 (align both to this)".data = false ∧
    (check_constraint_conflict "terraform-aws-modules/vpc/aws"
        (some (Constraint.mk "~> 1.0" [.Pessimistic ⟨1, 0, 0, []⟩ 2]))
        (some (Constraint.mk "~> 5.0" [.Pessimistic ⟨5, 0, 0, []⟩ 2]))
        "a.tf" 1 none "b.tf" 2 none).map Finding.suggestion
      = some (some ("Consider aligning the constraints. A compatible range might be: " ++
          "'~> 1.0 (align both to this)'")) := by
  refine ⟨by decide, by decide, by decide, by decide⟩

/-- C9: when two conflicting constraints are compared and both repository
fields are `None`, `repo1 == repo2` holds, so the `DRIFT001` finding is
emitted at `Error` severity. -/
theorem c9_conflict_no_repos_is_error (source : String) (c1 c2 : Constraint)
    (file1 : String) (line1 : Nat) (file2 : String) (line2 : Nat)
    (h : c1.conflicts_with c2) :
    (check_constraint_conflict source (some c1) (some c2)
        file1 line1 none file2 line2 none).map Finding.code = some "DRIFT001" ∧
    (check_constraint_conflict source (some c1) (some c2)
        file1 line1 none file2 line2 none).map Finding.severity
      = some Severity.Error := by
  simp only [check_constraint_conflict]
  rw [if_pos h]
  exact ⟨rfl, by simp⟩

/-- C9 witness: `>= 5.0` vs `<= 4.5`, repositories absent on both sides. -/
theorem c9_conflict_no_repos_is_error_witness :
    (check_constraint_conflict "terraform-aws-modules/vpc/aws"
        (some (Constraint.mk ">= 5.0" [.GreaterThanOrEqual ⟨5, 0, 0, []⟩]))
        (some (Constraint.mk "<= 4.5" [.LessThanOrEqual ⟨4, 5, 0, []⟩]))
        "a.tf" 3 none "b.tf" 7 none).map Finding.code = some "DRIFT001" ∧
    (check_constraint_conflict "terraform-aws-modules/vpc/aws"
        (some (Constraint.mk ">= 5.0" [.GreaterThanOrEqual ⟨5, 0, 0, []⟩]))
        (some (Constraint.mk "<= 4.5" [.LessThanOrEqual ⟨4, 5, 0, []⟩]))
        "a.tf" 3 none "b.tf" 7 none).map Finding.severity = some Severity.Error :=
  c9_conflict_no_repos_is_error "terraform-aws-modules/vpc/aws"
    (Constraint.mk ">= 5.0" [.GreaterThanOrEqual ⟨5, 0, 0, []⟩])
    (Constraint.mk "<= 4.5" [.LessThanOrEqual ⟨4, 5, 0, []⟩])
    "a.tf" 3 "b.tf" 7 (by decide)

/-- `RuntimeSource` (src/types.rs). -/
inductive RuntimeSource where
  | Terraform
  | OpenTofu
deriving DecidableEq

/-- The `Display` impl of `RuntimeSource` (src/types.rs). -/
def RuntimeSource.display (s : RuntimeSource) : String :=
  match s with
  | .Terraform => "terraform"
  | .OpenTofu => "opentofu"

/-- `RuntimeRef` (src/types.rs). -/
structure RuntimeRef where
  name : String
  version : Constraint
  source : RuntimeSource
  file_path : String
  line_number : Nat
  repository : Option String
deriving DecidableEq

/-- `VcsIdentifier` (src/vcs.rs / src/types.rs). -/
structure VcsIdentifier where
  canonical : String
  components : List String
deriving DecidableEq

/-- `EdgeType` (src/graph/types.rs). -/
inductive EdgeType where
  | ModuleDependsOn
  | ModuleRequiresProvider
  | ProviderAlias
  | LocalModuleRef
deriving DecidableEq

/-- `ModuleNode` (src/graph/types.rs). -/
structure ModuleNode where
  id : String
  name : String
  source : ModuleSource
  version_constraint : Option Constraint
  file_path : String
  line_number : Nat
  repository : Option String
deriving DecidableEq

/-- `ProviderNode` (src/graph/types.rs). -/
structure ProviderNode where
  id : String
  name : String
  source : String
  version_constraint : Option Constraint
  file_path : String
  line_number : Nat
  repository : Option String
deriving DecidableEq

/-- `RuntimeNode` (src/graph/types.rs). -/
structure RuntimeNode where
  id : String
  name : String
  version : Constraint
  source : String
  file_path : String
  line_number : Nat
  repository : Option String
deriving DecidableEq

/-- `GraphNode` (src/graph/types.rs). -/
inductive GraphNode where
  | Module (m : ModuleNode)
  | Provider (p : ProviderNode)
  | Runtime (r : RuntimeNode)
deriving DecidableEq

/-- `GraphNode::id` (src/graph/types.rs). -/
def GraphNode.id (n : GraphNode) : String :=
  match n with
  | .Module m => m.id
  | .Provider p => p.id
  | .Runtime r => r.id

/-- `HashMap` lookup modelled on an association list whose most recent
insertion comes first. -/
def hmLookup {α : Type} (m : List (String × α)) (k : String) : Option α :=
  (m.find? (fun e => e.1 == k)).map (fun e => e.2)

/-- `HashMap::insert`: the new binding shadows any previous one. -/
def hmInsert {α : Type} (m : List (String × α)) (k : String) (v : α) :
    List (String × α) :=
  (k, v) :: m

/-- `HashMap::contains_key`. -/
def hmContains {α : Type} (m : List (String × α)) (k : String) : Bool :=
  (hmLookup m k).isSome

/-- `DependencyGraph` (src/graph/types.rs): the petgraph arena is the list
of nodes in insertion order (`add_node` returns the next index) plus the
list of weighted directed edges. -/
structure DependencyGraph where
  inner_nodes : List GraphNode
  inner_edges : List (Nat × Nat × EdgeType)
  node_index : List (String × Nat)
  modules : List (String × Nat)
  providers : List (String × Nat)
  runtimes : List (String × Nat)
  vcs_metadata : List (String × VcsIdentifier)
deriving DecidableEq

/-- `DependencyGraph::new` (src/graph/types.rs). -/
def DependencyGraph.new : DependencyGraph :=
  ⟨[], [], [], [], [], [], []⟩

/-- `DependencyGraph::module_node_id` (src/graph/types.rs). -/
def module_node_id (module : ModuleRef) : String :=
  "module:" ++ (module.repository.getD "local") ++ ":" ++
    module.source.canonical_id ++ ":" ++ module.name

/-- `DependencyGraph::provider_node_id` (src/graph/types.rs). -/
def provider_node_id (provider : ProviderRef) : String :=
  "provider:" ++ (provider.repository.getD "local") ++ ":" ++
    provider.qualified_source

/-- `DependencyGraph::add_module` (src/graph/types.rs): skips insertion when
the id is already indexed. -/
def DependencyGraph.add_module (g : DependencyGraph) (module : ModuleRef) :
    DependencyGraph × String :=
  let node_id := module_node_id module
  match hmLookup g.node_index node_id with
  | some _ => (g, node_id)
  | none =>
      let node := GraphNode.Module ⟨node_id, module.name, module.source,
        module.version_constraint, module.file_path, module.line_number,
        module.repository⟩
      let idx := g.inner_nodes.length
      ({ g with
          inner_nodes := g.inner_nodes ++ [node]
          node_index := hmInsert g.node_index node_id idx
          modules := hmInsert g.modules node_id idx }, node_id)

/-- `DependencyGraph::add_provider` (src/graph/types.rs). -/
def DependencyGraph.add_provider (g : DependencyGraph) (provider : ProviderRef) :
    DependencyGraph × String :=
  let node_id := provider_node_id provider
  match hmLookup g.node_index node_id with
  | some _ => (g, node_id)
  | none =>
      let node := GraphNode.Provider ⟨node_id, provider.name,
        provider.qualified_source, provider.version_constraint,
        provider.file_path, provider.line_number, provider.repository⟩
      let idx := g.inner_nodes.length
      ({ g with
          inner_nodes := g.inner_nodes ++ [node]
          node_index := hmInsert g.node_index node_id idx
          providers := hmInsert g.providers node_id idx }, node_id)

/-- `DependencyGraph::add_runtime` (src/graph/types.rs).  Unlike
`add_module` / `add_provider`, the source contains no presence check before
inserting. -/
def DependencyGraph.add_runtime (g : DependencyGraph) (runtime : RuntimeRef) :
    DependencyGraph × String :=
  let node_id := "runtime:" ++ runtime.name
  let node := GraphNode.Runtime ⟨node_id, runtime.name, runtime.version,
    runtime.source.display, runtime.file_path, runtime.line_number,
    runtime.repository⟩
  let idx := g.inner_nodes.length
  ({ g with
      inner_nodes := g.inner_nodes ++ [node]
      node_index := hmInsert g.node_index node_id idx
      runtimes := hmInsert g.runtimes node_id idx }, node_id)

/-- petgraph `find_edge(from, to).is_some()`: is there an edge of ANY weight
between this ordered pair of node indices? -/
def graph_has_edge (g : DependencyGraph) (f t : Nat) : Bool :=
  g.inner_edges.any (fun e => e.1 == f && e.2.1 == t)

/-- `DependencyGraph::add_edge` (src/graph/types.rs). -/
def DependencyGraph.add_edge (g : DependencyGraph) (f t : String)
    (edge_type : EdgeType) : DependencyGraph × Bool :=
  match hmLookup g.node_index f with
  | none => (g, false)
  | some from_idx =>
      match hmLookup g.node_index t with
      | none => (g, false)
      | some to_idx =>
          if graph_has_edge g from_idx to_idx then (g, false)
          else
            ({ g with inner_edges := g.inner_edges ++ [(from_idx, to_idx, edge_type)] },
             true)

/-- The per-node body of the first `merge` loop (src/graph/types.rs): skip
nodes whose id is already indexed, otherwise insert into the arena and the
by-kind map. -/
def merge_node_step (g : DependencyGraph) (node : GraphNode) : DependencyGraph :=
  match node with
  | .Module m =>
      if hmContains g.node_index m.id then g
      else
        let idx := g.inner_nodes.length
        { g with
            inner_nodes := g.inner_nodes ++ [node]
            node_index := hmInsert g.node_index m.id idx
            modules := hmInsert g.modules m.id idx }
  | .Provider p =>
      if hmContains g.node_index p.id then g
      else
        let idx := g.inner_nodes.length
        { g with
            inner_nodes := g.inner_nodes ++ [node]
            node_index := hmInsert g.node_index p.id idx
            providers := hmInsert g.providers p.id idx }
  | .Runtime r =>
      if hmContains g.node_index r.id then g
      else
        let idx := g.inner_nodes.length
        { g with
            inner_nodes := g.inner_nodes ++ [node]
            node_index := hmInsert g.node_index r.id idx
            runtimes := hmInsert g.runtimes r.id idx }

/-- The per-edge body of the second `merge` loop (src/graph/types.rs),
acting on the (from-id, to-id, weight) triple of one edge of the other
graph: resolve both endpoint ids in `self` and insert unless some edge —
of any type — already connects the pair. -/
def merge_edge_step (g : DependencyGraph) (e : String × String × EdgeType) :
    DependencyGraph :=
  match hmLookup g.node_index e.1, hmLookup g.node_index e.2.1 with
  | some from_idx, some to_idx =>
      if graph_has_edge g from_idx to_idx then g
      else { g with inner_edges := g.inner_edges ++ [(from_idx, to_idx, e.2.2)] }
  | _, _ => g

/-- Resolve one edge of `other` to its endpoint node ids (petgraph edge
references always carry valid indices). -/
def edge_ref_ids (other : DependencyGraph) (e : Nat × Nat × EdgeType) :
    Option (String × String × EdgeType) :=
  match other.inner_nodes[e.1]?, other.inner_nodes[e.2.1]? with
  | some fn, some tn => some (fn.id, tn.id, e.2.2)
  | _, _ => none

/-- The per-entry body of the vcs-metadata `merge` loop
(`entry(..).or_insert(..)`). -/
def merge_vcs_step (g : DependencyGraph) (kv : String × VcsIdentifier) :
    DependencyGraph :=
  if hmContains g.vcs_metadata kv.1 then g
  else { g with vcs_metadata := hmInsert g.vcs_metadata kv.1 kv.2 }

/-- `DependencyGraph::merge` (src/graph/types.rs). -/
def DependencyGraph.merge (g other : DependencyGraph) : DependencyGraph :=
  let g1 := other.inner_nodes.foldl merge_node_step g
  let g2 := (other.inner_edges.filterMap (edge_ref_ids other)).foldl merge_edge_step g1
  other.vcs_metadata.foldl merge_vcs_step g2

theorem hmLookup_insert_self {α : Type} (m : List (String × α)) (k : String)
    (v : α) : hmLookup (hmInsert m k v) k = some v := by
  simp [hmLookup, hmInsert, List.find?_cons]

/-- C4: `add_module` and `add_provider` do deduplicate (re-adding a
reference returns the existing id and leaves the graph unchanged), but
`add_runtime` lacks the presence check its own doc comment promises: adding
the same runtime twice leaves two nodes with id `runtime:terraform` in the
node arena, violating the claimed NodeId uniqueness invariant. -/
theorem c4_runtime_nodes_duplicated :
    (((DependencyGraph.new.add_runtime
          (RuntimeRef.mk "terraform" (Constraint.mk "1.4.6" [.Exact ⟨1, 4, 6, []⟩])
            RuntimeSource.Terraform "main.tf" 1 none)).1.add_runtime
          (RuntimeRef.mk "terraform" (Constraint.mk "1.4.6" [.Exact ⟨1, 4, 6, []⟩])
            RuntimeSource.Terraform "main.tf" 1 none)).1.inner_nodes.map GraphNode.id
      = ["runtime:terraform", "runtime:terraform"]) ∧
    (∀ (g : DependencyGraph) (m : ModuleRef),
        (g.add_module m).1.add_module m = ((g.add_module m).1, module_node_id m)) ∧
    (∀ (g : DependencyGraph) (p : ProviderRef),
        (g.add_provider p).1.add_provider p = ((g.add_provider p).1, provider_node_id p)) := by
  refine ⟨by decide, ?_, ?_⟩
  · intro g m
    unfold DependencyGraph.add_module
    cases h : hmLookup g.node_index (module_node_id m) with
    | some v => simp [h]
    | none => simp [h, hmLookup_insert_self]
  · intro g p
    unfold DependencyGraph.add_provider
    cases h : hmLookup g.node_index (provider_node_id p) with
    | some v => simp [h]
    | none => simp [h, hmLookup_insert_self]

/-- C5 (amended): an edge is inserted — by `add_edge`, and per edge during
`merge` — exactly when both endpoint ids resolve and no edge of ANY type
already connects that ordered index pair; in particular a second edge of a
different type between two connected nodes is rejected (see
`c5_counterexample_different_type_rejected`). -/
theorem c5_edge_inserted_iff_no_edge_any_type :
    (∀ (g : DependencyGraph) (f t : String) (ty : EdgeType),
        (g.add_edge f t ty).2 = true ↔
          ∃ fi ti : Nat, hmLookup g.node_index f = some fi ∧
            hmLookup g.node_index t = some ti ∧
            graph_has_edge g fi ti = false) ∧
    (∀ (g : DependencyGraph) (fid tid : String) (w : EdgeType),
        (merge_edge_step g (fid, tid, w)).inner_edges.length =
            g.inner_edges.length + 1 ↔
          ∃ fi ti : Nat, hmLookup g.node_index fid = some fi ∧
            hmLookup g.node_index tid = some ti ∧
            graph_has_edge g fi ti = false) := by
  constructor
  · intro g f t ty
    unfold DependencyGraph.add_edge
    cases hf : hmLookup g.node_index f with
    | none => simp
    | some fi =>
        cases ht : hmLookup g.node_index t with
        | none => simp
        | some ti =>
            by_cases he : graph_has_edge g fi ti
            · simp [he]
            · simp [he]
  · intro g fid tid w
    unfold merge_edge_step
    cases hf : hmLookup g.node_index fid with
    | none => simp
    | some fi =>
        cases ht : hmLookup g.node_index tid with
        | none => simp
        | some ti =>
            by_cases he : graph_has_edge g fi ti
            · simp [he]
            · simp [he]

/-- C5 witness: two runtime nodes, no edge yet — insertion succeeds. -/
theorem c5_edge_inserted_iff_no_edge_any_type_witness :
    (((DependencyGraph.new.add_runtime
          (RuntimeRef.mk "terraform" (Constraint.mk "1.0.0" [.Exact ⟨1, 0, 0, []⟩])
            RuntimeSource.Terraform "a.tf" 1 none)).1.add_runtime
          (RuntimeRef.mk "opentofu" (Constraint.mk "1.6.0" [.Exact ⟨1, 6, 0, []⟩])
            RuntimeSource.OpenTofu "b.tf" 1 none)).1.add_edge
        "runtime:terraform" "runtime:opentofu" EdgeType.ModuleDependsOn).2 = true :=
  (c5_edge_inserted_iff_no_edge_any_type.1
      ((DependencyGraph.new.add_runtime
          (RuntimeRef.mk "terraform" (Constraint.mk "1.0.0" [.Exact ⟨1, 0, 0, []⟩])
            RuntimeSource.Terraform "a.tf" 1 none)).1.add_runtime
          (RuntimeRef.mk "opentofu" (Constraint.mk "1.6.0" [.Exact ⟨1, 6, 0, []⟩])
            RuntimeSource.OpenTofu "b.tf" 1 none)).1
      "runtime:terraform" "runtime:opentofu" EdgeType.ModuleDependsOn).mpr
    ⟨0, 1, by decide, by decide, by decide⟩

/-- C5 counterexample: after a `ModuleDependsOn` edge connects two nodes,
adding a `ProviderAlias` edge between the same ordered pair fails —
`find_edge` ignores the edge type, so the claim that a different-typed edge
succeeds is false. -/
theorem c5_counterexample_different_type_rejected :
    ((((DependencyGraph.new.add_runtime
          (RuntimeRef.mk "terraform" (Constraint.mk "1.0.0" [.Exact ⟨1, 0, 0, []⟩])
            RuntimeSource.Terraform "a.tf" 1 none)).1.add_runtime
          (RuntimeRef.mk "opentofu" (Constraint.mk "1.6.0" [.Exact ⟨1, 6, 0, []⟩])
            RuntimeSource.OpenTofu "b.tf" 1 none)).1.add_edge
        "runtime:terraform" "runtime:opentofu" EdgeType.ModuleDependsOn).1.add_edge
        "runtime:terraform" "runtime:opentofu" EdgeType.ProviderAlias).2 = false := by
  decide

/-- Does `suf` occur at the end of `l`? -/
def endsWithList (suf l : List Char) : Bool :=
  startsWithList suf.reverse l.reverse

/-- The `(?://(.+))?$` tail of the git source patterns
(src/parser/source.rs): either nothing remains, or `//` followed by a
nonempty subdirectory (the greedy `.+` takes everything). -/
def matchSubdirEnd (l : List Char) : Option (Option (List Char)) :=
  match l with
  | [] => some none
  | '/' :: '/' :: rest => if rest.isEmpty then none else some (some rest)
  | _ => none

/-- The `(?:\?ref=([^/]+))?(?://(.+))?$` tail of the git source patterns
(src/parser/source.rs).  When the text starts with `?ref=`, the greedy
`[^/]+` takes the maximal run of non-slash characters; backtracking to a
shorter ref or to skipping the group cannot produce a match the greedy
reading misses, so this function is extensionally the regex. -/
def matchRefSubdirEnd (l : List Char) :
    Option (Option (List Char) × Option (List Char)) :=
  if startsWithList "?ref=".data l then
    let rest := l.drop 5
    let r := rest.takeWhile (fun c => c != '/')
    if r.isEmpty then none
    else
      match matchSubdirEnd (rest.drop r.length) with
      | some sd => some (some r, sd)
      | none => none
  else
    match matchSubdirEnd l with
    | some sd => some (none, sd)
    | none => none

/-- The `(.+?)(?:\.git)?` part of `GIT_SSH_PATTERN` (src/parser/source.rs)
followed by the ref/subdir tail: the lazy `(.+?)` grows one character at a
time; at each length the optional `\.git` group prefers to consume. -/
def matchPathTail (l : List Char) :
    Option (List Char × Option (List Char) × Option (List Char)) :=
  go [] l
where
  go (acc rest : List Char) :
      Option (List Char × Option (List Char) × Option (List Char)) :=
    match rest with
    | [] => none
    | c :: cs =>
        let acc' := acc ++ [c]
        let withGit :=
          if startsWithList ".git".data cs then
            match matchRefSubdirEnd (cs.drop 4) with
            | some (r, sd) => some (acc', r, sd)
            | none => none
          else none
        match withGit with
        | some res => some res
        | none =>
            match matchRefSubdirEnd cs with
            | some (r, sd) => some (acc', r, sd)
            | none => go acc' cs

/-- The `(.+?\.git)` part of `GIT_URL_PATTERN` (src/parser/source.rs)
followed by the ref/subdir tail: the shortest nonempty prefix ending in
`.git` whose continuation matches, growing on failure. -/
def matchGitUrl (l : List Char) :
    Option (List Char × Option (List Char) × Option (List Char)) :=
  go [] l
where
  go (acc rest : List Char) :
      Option (List Char × Option (List Char) × Option (List Char)) :=
    match rest with
    | [] => none
    | c :: cs =>
        let acc' := acc ++ [c]
        if acc'.length > 4 && endsWithList ".git".data acc' then
          match matchRefSubdirEnd cs with
          | some (r, sd) => some (acc', r, sd)
          | none => go acc' cs
        else go acc' cs

/-- `GIT_SSH_PATTERN` (src/parser/source.rs):
`^git@([^:]+):(.+?)(?:\.git)?(?:\?ref=([^/]+))?(?://(.+))?$`, returning
(host, path, ref, subdir); `[^:]+` necessarily stops at the first colon. -/
def matchGitSsh (source : List Char) :
    Option (List Char × List Char × Option (List Char) × Option (List Char)) :=
  if startsWithList "git@".data source then
    let rest := source.drop 4
    let host := rest.takeWhile (fun c => c != ':')
    if host.isEmpty then none
    else
      match rest.drop host.length with
      | ':' :: tail =>
          match matchPathTail tail with
          | some (path, r, sd) => some (host, path, r, sd)
          | none => none
      | _ => none
  else none

/-- `GITHUB_PATTERN` (src/parser/source.rs):
`^(?:https?://)?github\.com/([^/]+)/([^/?]+)(?:\.git)?(?:\?ref=…)?(?://…)?$`.
After the greedy `[^/?]+` the next character is `/`, `?` or the end, so the
optional `\.git` group never consumes and the repo capture keeps any `.git`
suffix. -/
def matchGithub (source : List Char) :
    Option (List Char × List Char × Option (List Char) × Option (List Char)) :=
  let l :=
    if startsWithList "https://".data source then source.drop 8
    else if startsWithList "http://".data source then source.drop 7
    else source
  if startsWithList "github.com/".data l then
    let rest := l.drop 11
    let owner := rest.takeWhile (fun c => c != '/')
    if owner.isEmpty then none
    else
      match rest.drop owner.length with
      | '/' :: rest2 =>
          let repo := rest2.takeWhile (fun c => c != '/' && c != '?')
          if repo.isEmpty then none
          else
            match matchRefSubdirEnd (rest2.drop repo.length) with
            | some (r, sd) => some (owner, repo, r, sd)
            | none => none
      | _ => none
  else none

/-- `is_local_path` (src/parser/source.rs). -/
def is_local_path (source : List Char) : Bool :=
  startsWithList "./".data source ||
  startsWithList "../".data source ||
  startsWithList "/".data source ||
  startsWithList "~".data source ||
  (source.length ≥ 2 && source[1]? == some ':')

/-- `try_parse_git_source` (src/parser/source.rs): the `git::` branch, then
the `git@host:path` branch, then the GitHub shorthand. -/
def try_parse_git_source (source : List Char) : Option ModuleSource :=
  match (if startsWithList "git::".data source
         then matchGitUrl (source.drop 5) else none) with
  | some (url, r, sd) =>
      some (ModuleSource.Git ("git::" ++ String.mk url) (String.mk url)
        (r.map String.mk) (sd.map String.mk))
  | none =>
      match matchGitSsh source with
      | some (host, path, r, sd) =>
          some (ModuleSource.Git (String.mk host)
            ("ssh://git@" ++ String.mk host ++ "/" ++ String.mk path)
            (r.map String.mk) (sd.map String.mk))
      | none =>
          match matchGithub source with
          | some (owner, repo, r, sd) =>
              some (ModuleSource.Git
                ("github.com/" ++ String.mk owner ++ "/" ++ String.mk repo ++ ".git")
                ("https://github.com/" ++ String.mk owner ++ "/" ++ String.mk repo ++ ".git")
                (r.map String.mk) (sd.map String.mk))
          | none => none

/-- The SCP-form key derived in `module_deprecation_keys`
(src/analyzer/deprecation.rs) through `url::Url::parse`, modelled for the
`ssh://user@host/path` URLs this code builds: when the scheme is `ssh` and
the path is nonempty, emit `user@host:path` with the user defaulting to
`git` and leading slashes stripped from the path. -/
def sshUrlScpKey (url : String) : Option String :=
  let l := url.data
  if startsWithList "ssh://".data l then
    let rest := l.drop 6
    let authority := rest.takeWhile (fun c => c != '/')
    let path := rest.drop authority.length
    let user := if authority.contains '@' then authority.takeWhile (fun c => c != '@') else []
    let host := if authority.contains '@' then (authority.dropWhile (fun c => c != '@')).drop 1 else authority
    let trimmed := path.dropWhile (fun c => c = '/')
    if trimmed.isEmpty then none
    else
      let user := if user.isEmpty then "git".data else user
      some (String.mk user ++ "@" ++ String.mk host ++ ":" ++ String.mk trimmed)
  else none

/-- The `push_key` closure of `module_deprecation_keys`
(src/analyzer/deprecation.rs): append unless already seen. -/
def pushKey (ks : List String) (k : String) : List String :=
  if ks.contains k then ks else ks ++ [k]

/-- `module_deprecation_keys` (src/analyzer/deprecation.rs). -/
def module_deprecation_keys (source : ModuleSource) : List String :=
  match source with
  | .Git host url _ subdir =>
      let keys := pushKey (pushKey (pushKey [] host) url) ("git::" ++ url)
      let keys :=
        match sshUrlScpKey url with
        | some k => pushKey keys k
        | none => keys
      match subdir with
      | some s => if s.isEmpty then keys else keys.map (fun k => k ++ "//" ++ s)
      | none => keys
  | .Registry hostname nspace name provider =>
      let full := (ModuleSource.Registry hostname nspace name provider).canonical_id
      if hostname = "registry.terraform.io" then
        [full, nspace ++ "/" ++ name ++ "/" ++ provider]
      else [full]
  | other => [other.canonical_id]

/-- C6: on the source string `git@github.com:o/r.git?ref=v1//sub` the SSH
branch captures host `github.com` (only the text before the colon), so the
canonical identifier is `github.com?ref=v1//sub`, NOT the claimed
`github.com/o/r.git?ref=v1//sub` — the repository's own unit test
`test_parse_git_ssh_source` expects the `host/path.git` form, so the code
contradicts its own test.  The SCP-style deprecation key
(`git@github.com:o/r//sub`) is emitted as claimed. -/
theorem c6_ssh_host_drops_path :
    is_local_path "git@github.com:o/r.git?ref=v1//sub".data = false ∧
    try_parse_git_source "git@github.com:o/r.git?ref=v1//sub".data
      = some (ModuleSource.Git "github.com" "ssh://git@github.com/o/r"
          (some "v1") (some "sub")) ∧
    (ModuleSource.Git "github.com" "ssh://git@github.com/o/r"
        (some "v1") (some "sub")).canonical_id = "github.com?ref=v1//sub" ∧
    ("github.com?ref=v1//sub" : String) ≠ "github.com/o/r.git?ref=v1//sub" ∧
    module_deprecation_keys
        (ModuleSource.Git "github.com" "ssh://git@github.com/o/r"
          (some "v1") (some "sub"))
      = ["github.com//sub", "ssh://git@github.com/o/r//sub",
         "git::ssh://git@github.com/o/r//sub", "git@github.com:o/r//sub"] := by
  refine ⟨by decide, by decide, by decide, by decide, by decide⟩
